import Mathlib

/-!
Shallow embedding of `email-validator-backend/app.py` (Flask email
verification service) and verification of its specification claims.

The program accepts a spreadsheet upload, extracts an email column,
verifies each address against a remote service, persists progress
snapshots after each address, and finally partitions results into
valid/invalid CSV tables.

External collaborators (the pandas parser, the HTTP stack, the remote
verification endpoint, the filesystem) are modelled as explicit inputs:
a parsed `DataFrame`, an oracle giving each remote call's outcome, and
an explicit list of persisted snapshot writes.
-/

namespace EmailVerifier

/-! ## Configuration (app.py lines 26-28)

`API_KEY = os.getenv('API_KEY', "f4488…")` — a hard-coded fallback key.
`MAX_EMAILS = int(os.getenv('MAX_EMAILS', 100))` — `int` of the env value
when present, else `int(100)`.  A present but non-integer value raises
`ValueError` at module load, aborting startup. -/

def defaultApiKey : String :=
  "f4488df31e8e4cf70b779feb674c23f146adf30d23f3923503b4584bfe6b"

/-- Digit-string to `Nat`; `none` unless the list is a nonempty run of
ASCII digits.  Models the digit core accepted by Python `int()`. -/
def parseDigits (cs : List Char) : Option Nat :=
  if cs ≠ [] ∧ cs.all (·.isDigit) then
    some (cs.foldl (fun a c => a * 10 + (c.toNat - 48)) 0)
  else none

/-- Python `s.strip()`: drop whitespace from both ends (as a character
list, to keep every definition kernel-evaluable). -/
def pyStrip (s : String) : List Char :=
  ((s.toList.dropWhile Char.isWhitespace).reverse.dropWhile
    Char.isWhitespace).reverse

/-- Python `int(s)` on a string: surrounding whitespace stripped, optional
sign, then decimal digits; anything else raises `ValueError` (modelled as
`none`). -/
def pyInt (s : String) : Option Int :=
  match pyStrip s with
  | '+' :: rest => (parseDigits rest).map Int.ofNat
  | '-' :: rest => (parseDigits rest).map (fun n => -(n : Int))
  | cs => (parseDigits cs).map Int.ofNat

structure Config where
  API_KEY : String
  MAX_EMAILS : Int
deriving Repr, DecidableEq

/-- Module-load configuration (app.py lines 27-28).  The environment is a
partial map from variable name to value.  Returns `Except`: `.error`
models the `ValueError` escaping module initialization (process fails to
start). -/
def loadConfig (env : String → Option String) : Except String Config :=
  let apiKey := (env "API_KEY").getD defaultApiKey
  match env "MAX_EMAILS" with
  | none => .ok { API_KEY := apiKey, MAX_EMAILS := 100 }
  | some s =>
    match pyInt s with
    | some n => .ok { API_KEY := apiKey, MAX_EMAILS := n }
    | none => .error ("invalid literal for int() with base 10: " ++ s)

/-! ## Address extractor: `read_emails` (app.py lines 153-165) -/

/-- A parsed dataframe: ordered columns, each a name and a cell list.
`none` cells are pandas `NaN` (absent or empty fields under default
parsing); present cells are modelled by their `astype(str)` rendering. -/
structure DataFrame where
  columns : List (String × List (Option String))
deriving Repr, DecidableEq

/-- Whether `pat` is an initial run of `s` (character lists). -/
def leadsWith : List Char → List Char → Bool
  | [], _ => true
  | _ :: _, [] => false
  | a :: as, b :: bs => a == b && leadsWith as bs

/-- Whether `pat` occurs contiguously anywhere in `s` (character lists). -/
def occursIn (pat : List Char) : List Char → Bool
  | [] => leadsWith pat []
  | b :: bs => leadsWith pat (b :: bs) || occursIn pat bs

/-- Python `s.lower()` as a character list. -/
def pyLower (s : String) : List Char := s.toList.map Char.toLower

/-- Python `pat in chars` substring test. -/
def pyIn (pat : String) (chars : List Char) : Bool :=
  occursIn pat.toList chars

/-- Python `xs[:n]` for an `int` bound `n`: the first `n` entries when
`0 ≤ n`, all but the last `-n` entries when `n < 0` (clamped at empty). -/
def pySliceTo (n : Int) (xs : List α) : List α :=
  if 0 ≤ n then xs.take n.toNat else xs.take (xs.length - (-n).toNat)

/-- Model of `read_emails` (app.py lines 153-165).  Inputs: the configured limit,
the file extension (lower-cased by the source), and the pandas parse
outcome for the file (an external collaborator, hence passed in).
`Except.error` models the exceptions the function can raise: unsupported
extension, parser failure, and the `IndexError` from `df.columns[0]` on a
zero-column frame. -/
def read_emails (MAX_EMAILS : Int) (ext : String)
    (parsed : Except String DataFrame) : Except String (List String) :=
  if ext == ".csv" || ext == ".xlsx" || ext == ".xls" then
    match parsed with
    | .error e => .error e
    | .ok df =>
      match df.columns with
      | [] => .error "index 0 is out of bounds for axis 0 with size 0"
      | c0 :: _ =>
        let email_col :=
          ((df.columns.find? (fun col => pyIn "email" (pyLower col.1))).getD c0)
        let emails := email_col.2.filterMap id
        .ok (pySliceTo MAX_EMAILS emails)
  else
    .error "Unsupported file type. Please upload a CSV or Excel file."

/-- Modelled from the spec: §4.1's contract for the Address Extractor,
written from the spec's own words for comparison with `read_emails`:
choose the first column whose name contains "email" case-insensitively,
falling back to the first column; drop absent/empty cells; coerce the
rest to strings; return at most the first `N` entries in order. -/
def extractorSpec (N : Nat) (df : DataFrame) : Option (List String) :=
  ((df.columns.find? (fun col => pyIn "email" (pyLower col.1))).orElse
      (fun _ => df.columns.head?)).map
    (fun col => (col.2.filterMap id).take N)

/-! ## Verification client: `validate_email` (app.py lines 168-175) -/

/-- A decoded JSON payload, restricted to the two fields the client
reads; `none` models an absent field. -/
structure Payload where
  result? : Option String
  reason? : Option String
deriving Repr, DecidableEq

/-- Outcome of one remote verification call as seen at the `try` block:
either a response whose body decoded to a JSON object (any HTTP status),
or some raised exception (connection error, timeout, decode failure, …)
carrying its `str(e)` text. -/
inductive RemoteOutcome where
  | success (payload : Payload)
  | failure (msg : String)
deriving Repr, DecidableEq

/-- Model of `validate_email` (app.py lines 168-175): a total function from the
remote call's outcome to a (status, reason) pair.  The `except` clause
catches every exception, so no exception propagates. -/
def validate_email (o : RemoteOutcome) : String × String :=
  match o with
  | .success data => (data.result?.getD "unknown", data.reason?.getD "")
  | .failure e => ("error", e)

/-! ## The results dict and `save_results` (app.py lines 82-85, 178-198) -/

/-- The `results` Python dict: a map from address to (status, reason); model:
an association list with unique keys in insertion order. -/
abbrev ResultsDict := List (String × String × String)

/-- Dict assignment `results[email] = v`: updating an existing key keeps its position and
replaces its value; a new key is appended. -/
def dictInsert (d : ResultsDict) (k : String) (v : String × String) : ResultsDict :=
  if d.any (fun p => p.1 == k) then
    d.map (fun p => if p.1 == k then (k, v.1, v.2) else p)
  else
    d ++ [(k, v.1, v.2)]

/-- Lookup of `results[k]`. -/
def dictGet (d : ResultsDict) (k : String) : Option (String × String) :=
  (d.find? (fun p => p.1 == k)).map (fun p => p.2)

/-- The comprehension `valid = [e for e, (s, _) in results.items() if s == "valid"]`. -/
def validList (d : ResultsDict) : List String :=
  (d.filter (fun p => p.2.1 == "valid")).map (fun p => p.1)

/-- The comprehension `invalid = [e for e, (s, _) in results.items() if s != "valid"]`. -/
def invalidList (d : ResultsDict) : List String :=
  (d.filter (fun p => p.2.1 != "valid")).map (fun p => p.1)

/-- The valid-partition CSV (app.py lines 185-189): fixed header row,
then one (email, "valid") row per valid address. -/
def validTable (d : ResultsDict) : List (List String) :=
  ["Email", "Status"] :: (validList d).map (fun e => [e, "valid"])

/-- The invalid-partition CSV (app.py lines 191-196): fixed header row,
then one (email, status, reason) row per invalid address, looked up as
`status, reason = results[e]`. -/
def invalidTable (d : ResultsDict) : List (List String) :=
  ["Email", "Status", "Reason"] ::
    (invalidList d).map (fun e =>
      let sr := (dictGet d e).getD ("", "")
      [e, sr.1, sr.2])

/-- Return value of `save_results` (app.py line 198): `len(valid), len(invalid)`. -/
def save_results (d : ResultsDict) : Nat × Nat :=
  ((validList d).length, (invalidList d).length)

/-! ## Job runner: `_process` (app.py lines 81-104) -/

/-- The `validation_progress` dict.  `percentage` appears from the first
loop iteration on; `valid_count`/`invalid_count` appear only in the final
write.  Percentages are modelled over `Rat`. -/
structure Snapshot where
  total : Nat
  processed : Nat
  session_id : String
  status : String
  limit : Int
  percentage : Option Rat := none
  valid_count : Option Nat := none
  invalid_count : Option Nat := none
deriving Repr, DecidableEq

/-- The snapshot written by `validate_emails` before the worker starts
(app.py lines 70-78): `processed = 0`, `status = 'processing'`. -/
def initialSnapshot (sid : String) (limit : Int) (n : Nat) : Snapshot :=
  { total := n, processed := 0, session_id := sid, status := "processing",
    limit := limit }

/-- The per-address loop of `_process` (app.py lines 83-94), over the
`enumerate(emails, 1)` pairs.  The remote endpoint is an oracle mapping
the 1-based call index to that call's outcome.  Threads the mutable
`results` dict and `validation_progress` snapshot; returns the final
dict, the final snapshot state, and the list of snapshot writes in
order. -/
def processLoop (oracle : Nat → RemoteOutcome) (n : Nat) :
    List (Nat × String) → ResultsDict → Snapshot →
      ResultsDict × Snapshot × List Snapshot
  | [], d, prog => (d, prog, [])
  | (i, email) :: rest, d, prog =>
    let sr := validate_email (oracle i)
    let d' := dictInsert d email sr
    let prog' := { prog with
      processed := i,
      percentage := some ((i : Rat) / (n : Rat) * 100) }
    let r := processLoop oracle n rest d' prog'
    (r.1, r.2.1, prog' :: r.2.2)

/-- What one run of the background worker produces. -/
structure JobRun where
  results : ResultsDict
  writes : List Snapshot
  valid_count : Nat
  invalid_count : Nat
deriving Repr, DecidableEq

/-- Model of `_process` (app.py lines 81-104): run the loop, save results, then
write the final snapshot (`status = 'complete'` plus the two counts) as
the last mutation. -/
def runProcess (oracle : Nat → RemoteOutcome) (emails : List String)
    (init : Snapshot) : JobRun :=
  let r := processLoop oracle emails.length (List.enumFrom 1 emails) [] init
  let vc := (save_results r.1).1
  let ic := (save_results r.1).2
  let fin := { r.2.1 with
    status := "complete", valid_count := some vc, invalid_count := some ic }
  { results := r.1, writes := r.2.2 ++ [fin], valid_count := vc,
    invalid_count := ic }

/-- All progress writes a session ever sees, in order: the initial write
from `validate_emails`, then the worker's writes. -/
def sessionWrites (oracle : Nat → RemoteOutcome) (sid : String)
    (limit : Int) (emails : List String) : List Snapshot :=
  initialSnapshot sid limit emails.length ::
    (runProcess oracle emails (initialSnapshot sid limit emails.length)).writes

/-! ## Gateway: `validate_emails` (app.py lines 35-115) and
`download_results` (app.py lines 140-150) -/

/-- The HTTP 400 client errors `validate_emails` can return, with the
data each message interpolates. -/
inductive ClientError where
  | readError (msg : String)
  | noEmailsFound
  | tooManyAddresses (count : Nat) (limit : Int)
deriving Repr, DecidableEq

/-- The literal response messages (app.py lines 57, 60, 65). -/
def errorMessage : ClientError → String
  | .readError msg => msg
  | .noEmailsFound => "No emails found in the file"
  | .tooManyAddresses count limit =>
    "File contains " ++ toString count ++
      " emails, but the maximum allowed is " ++ toString limit ++
      ". Please upload a smaller file or upgrade your plan."

/-- The JSON body returned on acceptance (app.py lines 109-115). -/
structure SubmitResponse where
  session_id : String
  total : Nat
  valid_count : Nat
  invalid_count : Nat
  limit : Int
deriving Repr, DecidableEq

/-- What an accepted submission produces before returning: the response,
the initial snapshot write, and the email list handed to the spawned
background worker. -/
structure Accepted where
  response : SubmitResponse
  initialWrite : Snapshot
  jobEmails : List String
deriving Repr, DecidableEq

/-- Model of `validate_emails` (app.py lines 53-115) from the point the file is
saved: takes the `read_emails` outcome and either returns a 400 client
error (no snapshot written, no worker spawned) or accepts. -/
def validate_emails (MAX_EMAILS : Int) (sid : String)
    (parsed : Except String (List String)) : Except ClientError Accepted :=
  match parsed with
  | .error e => .error (.readError e)
  | .ok emails =>
    if emails.isEmpty then .error .noEmailsFound
    else if (emails.length : Int) > MAX_EMAILS then
      .error (.tooManyAddresses emails.length MAX_EMAILS)
    else
      let resp : SubmitResponse :=
        { session_id := sid, total := emails.length, valid_count := 0,
          invalid_count := 0, limit := MAX_EMAILS }
      .ok { response := resp,
            initialWrite := initialSnapshot sid MAX_EMAILS emails.length,
            jobEmails := emails }

/-- The whole Submit path: extraction then acceptance checks. -/
def fullSubmit (MAX_EMAILS : Int) (sid ext : String)
    (parsed : Except String DataFrame) : Except ClientError Accepted :=
  validate_emails MAX_EMAILS sid (read_emails MAX_EMAILS ext parsed)

/-- Snapshot writes performed by the Submit request itself. -/
def submitWrites : Except ClientError Accepted → List Snapshot
  | .error _ => []
  | .ok a => [a.initialWrite]

/-- Whether Submit spawned a background worker. -/
def submitLaunched : Except ClientError Accepted → Bool
  | .error _ => false
  | .ok _ => true

/-- Outcomes of `download_results` (app.py lines 140-150). -/
inductive DownloadResult where
  | invalidKind
  | notFound
  | file (table : List (List String))
deriving Repr, DecidableEq

/-- The results folder as a partial map from file name to CSV table. -/
abbrev Store := String → Option (List (List String))

/-- Folder state before `save_results` has run: no result file exists. -/
def emptyStore : Store := fun _ => none

/-- Folder state after `save_results sid results` has written both
partition files (app.py lines 182-196). -/
def resultsStore (sid : String) (d : ResultsDict) : Store := fun name =>
  if name == sid ++ "_valid_emails.csv" then some (validTable d)
  else if name == sid ++ "_invalid_emails.csv" then some (invalidTable d)
  else none

/-- Model of `download_results` (app.py lines 140-150): reject unknown kinds with
400, missing files with 404, else serve the file. -/
def download_results (store : Store) (sid file_type : String) : DownloadResult :=
  if !(file_type == "valid" || file_type == "invalid") then .invalidKind
  else
    match store (sid ++ "_" ++ file_type ++ "_emails.csv") with
    | none => .notFound
    | some t => .file t

/-! ## Concrete instances used in witnesses and counterexamples -/

/-- A one-column uploaded file holding three addresses. -/
def df3 : DataFrame := ⟨[("email", [some "a", some "b", some "c"])]⟩

/-- A one-column uploaded file whose only cell is empty (pandas `NaN`),
so zero addresses are extractable. -/
def dfBlank : DataFrame := ⟨[("email", [none])]⟩

/-- An environment with neither configuration variable set. -/
def envEmpty : String → Option String := fun _ => none

/-- An environment whose only setting is a negative `MAX_EMAILS`. -/
def envNeg : String → Option String := fun k =>
  if k == "MAX_EMAILS" then some "-5" else none

/-- A remote endpoint whose first call reports `valid` and whose later
calls raise a timeout. -/
def oracleW : Nat → RemoteOutcome := fun i =>
  if i == 1 then .success ⟨some "valid", some "accepted_email"⟩
  else .failure "timeout"

/-- One loop iteration's dict update, as a fold step (the dict part of
an iteration of the loop in `_process`). -/
def insertStep (oracle : Nat → RemoteOutcome) (d : ResultsDict)
    (p : Nat × String) : ResultsDict :=
  dictInsert d p.2 (validate_email (oracle p.1))

/-! ## Helper lemmas -/

theorem pySliceTo_of_nonneg {n : Int} (hn : 0 ≤ n) (xs : List α) :
    pySliceTo n xs = xs.take n.toNat := by
  simp [pySliceTo, hn]

theorem length_pySliceTo_le {n : Int} (hn : 0 ≤ n) (xs : List α) :
    ((pySliceTo n xs).length : Int) ≤ n := by
  rw [pySliceTo_of_nonneg hn]
  calc ((xs.take n.toNat).length : Int) ≤ (n.toNat : Int) := by
        exact_mod_cast List.length_take_le n.toNat xs
    _ = n := Int.toNat_of_nonneg hn

/-- Extraction truncates before returning, so the list Submit sees never
exceeds a nonnegative limit. -/
theorem read_emails_length_le {MAX : Int} {ext : String}
    {parsed : Except String DataFrame} {l : List String}
    (hM : 0 ≤ MAX) (h : read_emails MAX ext parsed = .ok l) :
    (l.length : Int) ≤ MAX := by
  unfold read_emails at h
  split at h
  · split at h
    · simp at h
    · split at h
      · simp at h
      · simp only [Except.ok.injEq] at h
        rw [← h]
        exact length_pySliceTo_le hM _
  · simp at h

/-! ## Claim theorems -/

/-- C4: the verification client is a total function returning a
(status, reason) pair: on a decoded response, status and reason come
verbatim from the payload's result/reason fields, defaulting to
`unknown` and the empty string when absent; on any transport, timeout,
or decode failure it returns status `error` with the failure's text.
Totality (no exception propagates) is inherent: `validate_email` is a
total Lean function on every `RemoteOutcome`. -/
theorem c4_verification_client_total :
    (∀ p r, p.result? = some r → (validate_email (.success p)).1 = r) ∧
    (∀ p, p.result? = none → (validate_email (.success p)).1 = "unknown") ∧
    (∀ p r, p.reason? = some r → (validate_email (.success p)).2 = r) ∧
    (∀ p, p.reason? = none → (validate_email (.success p)).2 = "") ∧
    (∀ msg, validate_email (.failure msg) = ("error", msg)) := by
  refine ⟨?_, ?_, ?_, ?_, ?_⟩ <;> intros <;> simp_all [validate_email]

theorem c4_verification_client_total_witness :
    (validate_email (.success ⟨some "valid", some "ok"⟩)).1 = "valid" ∧
    (validate_email (.success ⟨none, none⟩)).1 = "unknown" ∧
    (validate_email (.success ⟨some "valid", some "ok"⟩)).2 = "ok" ∧
    (validate_email (.success ⟨none, none⟩)).2 = "" :=
  ⟨c4_verification_client_total.1 ⟨some "valid", some "ok"⟩ "valid" rfl,
   c4_verification_client_total.2.1 ⟨none, none⟩ rfl,
   c4_verification_client_total.2.2.1 ⟨some "valid", some "ok"⟩ "ok" rfl,
   c4_verification_client_total.2.2.2.1 ⟨none, none⟩ rfl⟩

/-- C9: an upload from which zero addresses are extracted is rejected
with the `No emails found` client error; no progress snapshot is
written and no background worker is spawned (hence no verification call
is ever made for the session). -/
theorem c9_empty_extraction_rejected (MAX : Int) (sid ext : String)
    (parsed : Except String DataFrame)
    (h : read_emails MAX ext parsed = .ok []) :
    fullSubmit MAX sid ext parsed = .error .noEmailsFound ∧
    submitWrites (fullSubmit MAX sid ext parsed) = [] ∧
    submitLaunched (fullSubmit MAX sid ext parsed) = false := by
  have hs : fullSubmit MAX sid ext parsed = .error .noEmailsFound := by
    unfold fullSubmit
    rw [h]
    rfl
  exact ⟨hs, by rw [hs]; rfl, by rw [hs]; rfl⟩

theorem c9_empty_extraction_rejected_witness :
    read_emails 100 ".csv" (.ok dfBlank) = .ok [] ∧
    fullSubmit 100 "s" ".csv" (.ok dfBlank) = .error .noEmailsFound ∧
    submitWrites (fullSubmit 100 "s" ".csv" (.ok dfBlank)) = [] ∧
    submitLaunched (fullSubmit 100 "s" ".csv" (.ok dfBlank)) = false :=
  ⟨rfl, c9_empty_extraction_rejected 100 "s" ".csv" (.ok dfBlank) rfl⟩

/-- C2 counterexample: with neither environment variable set the process
starts anyway — the credential falls back to the hard-coded default key
and the ceiling to 100 — and a negative ceiling `-5` is accepted,
refuting both "required, process fails to start without it" and "must
parse as a positive integer; process fails to start otherwise". -/
theorem c2_counterexample :
    loadConfig envEmpty = .ok { API_KEY := defaultApiKey, MAX_EMAILS := 100 } ∧
    loadConfig envNeg = .ok { API_KEY := defaultApiKey, MAX_EMAILS := -5 } :=
  ⟨rfl, rfl⟩

/-- C2 (amended): startup fails if and only if a `MAX_EMAILS` value is
present in the environment but does not parse as an integer; a missing
credential falls back to a hard-coded default key (and on success the
credential is the environment's value when present, the default
otherwise); a missing ceiling defaults to 100, and integer ceilings of
any sign are accepted. -/
theorem c2_startup_failure_iff (env : String → Option String) :
    ((∃ e, loadConfig env = .error e) ↔
      ∃ s, env "MAX_EMAILS" = some s ∧ pyInt s = none) ∧
    (∀ cfg, loadConfig env = .ok cfg →
      cfg.API_KEY = (env "API_KEY").getD defaultApiKey ∧
      cfg.MAX_EMAILS = ((env "MAX_EMAILS").bind pyInt).getD 100) := by
  cases hv : env "MAX_EMAILS" with
  | none =>
    simp only [loadConfig, hv]
    constructor
    · constructor
      · rintro ⟨e, he⟩
        cases he
      · rintro ⟨s, hs, -⟩
        cases hs
    · intro cfg hcfg
      injection hcfg with h
      rw [← h]
      exact ⟨rfl, rfl⟩
  | some s =>
    cases hp : pyInt s with
    | some n =>
      simp only [loadConfig, hv, hp]
      constructor
      · constructor
        · rintro ⟨e, he⟩
          cases he
        · rintro ⟨s', hs', hp'⟩
          obtain rfl : s = s' := by injection hs'
          rw [hp] at hp'
          cases hp'
      · intro cfg hcfg
        injection hcfg with h
        rw [← h]
        refine ⟨rfl, ?_⟩
        simp [hp]
    | none =>
      simp only [loadConfig, hv, hp]
      constructor
      · constructor
        · intro _
          exact ⟨s, rfl, hp⟩
        · intro _
          exact ⟨_, rfl⟩
      · intro cfg hcfg
        cases hcfg

theorem c2_startup_failure_iff_witness :
    (Config.mk defaultApiKey 100).API_KEY
        = (envEmpty "API_KEY").getD defaultApiKey ∧
    (Config.mk defaultApiKey 100).MAX_EMAILS
        = ((envEmpty "MAX_EMAILS").bind pyInt).getD 100 :=
  (c2_startup_failure_iff envEmpty).2 (Config.mk defaultApiKey 100) rfl

/-- C1 counterexample: the uploaded file `df3` holds three extractable
addresses while the configured maximum is 2, yet Submit does not fail:
extraction silently truncates to the first two addresses and the job is
accepted (response returned, snapshot written, worker spawned), so no
`TooManyAddresses` client error occurs. -/
theorem c1_counterexample :
    df3.columns.map (fun c => (c.2.filterMap id).length) = [3] ∧
    fullSubmit 2 "s" ".csv" (.ok df3) =
      .ok { response := { session_id := "s", total := 2, valid_count := 0,
                          invalid_count := 0, limit := 2 },
            initialWrite := initialSnapshot "s" 2 2,
            jobEmails := ["a", "b"] } :=
  ⟨rfl, rfl⟩

/-- C1 (amended): because `read_emails` truncates the extracted list to
the configured maximum at read time, the address list Submit checks
never exceeds a nonnegative maximum, so the over-limit rejection is
unreachable: Submit never fails with `TooManyAddresses`; an oversized
upload is silently truncated and, when any address remains, accepted. -/
theorem c1_too_many_unreachable (MAX : Int) (hM : 0 ≤ MAX)
    (sid ext : String) (parsed : Except String DataFrame)
    (n : Nat) (m : Int) :
    fullSubmit MAX sid ext parsed ≠ .error (.tooManyAddresses n m) := by
  unfold fullSubmit validate_emails
  cases h : read_emails MAX ext parsed with
  | error e => simp
  | ok emails =>
    have hlen : ¬((emails.length : Int) > MAX) :=
      not_lt.mpr (read_emails_length_le hM h)
    by_cases he : emails.isEmpty
    · simp [he]
    · simp [he, hlen]

theorem c1_too_many_unreachable_witness :
    0 ≤ (2 : Int) ∧
    fullSubmit 2 "s" ".csv" (.ok df3) ≠ .error (.tooManyAddresses 3 2) :=
  ⟨by decide, c1_too_many_unreachable 2 (by decide) "s" ".csv" (.ok df3) 3 2⟩

/-- C7: for every supported upload with at least one column, the
extractor agrees with the spec's contract: it selects the first column
whose name contains "email" case-insensitively (falling back to the
first column), drops absent/empty cells, keeps the remaining string
values, and returns at most the first `N` entries in order, truncating
silently, where `N` is the configured maximum. -/
theorem read_emails_ok (MAX : Int) (ext : String) (df : DataFrame)
    (hcond : (ext == ".csv" || ext == ".xlsx" || ext == ".xls") = true)
    (c0 : String × List (Option String))
    (rest : List (String × List (Option String)))
    (hc : df.columns = c0 :: rest) :
    read_emails MAX ext (.ok df) =
      .ok (pySliceTo MAX
        (((df.columns.find? (fun col => pyIn "email" (pyLower col.1))).getD
            c0).2.filterMap id)) := by
  unfold read_emails
  rw [if_pos hcond]
  dsimp only
  rw [hc]

theorem extractorSpec_cons (N : Nat) (df : DataFrame)
    (c0 : String × List (Option String))
    (rest : List (String × List (Option String)))
    (hc : df.columns = c0 :: rest) :
    extractorSpec N df =
      some ((((df.columns.find? (fun col => pyIn "email" (pyLower col.1))).getD
          c0).2.filterMap id).take N) := by
  unfold extractorSpec
  rw [hc]
  cases hf : List.find? (fun col => pyIn "email" (pyLower col.1)) (c0 :: rest) with
  | none => simp [hf, Option.orElse]
  | some c => simp [hf, Option.orElse]

theorem c7_extractor_meets_contract (MAX : Int) (hM : 0 ≤ MAX)
    (ext : String) (df : DataFrame)
    (hext : ext = ".csv" ∨ ext = ".xlsx" ∨ ext = ".xls")
    (hcols : df.columns ≠ []) :
    ∃ l, read_emails MAX ext (.ok df) = .ok l ∧
      extractorSpec MAX.toNat df = some l ∧
      l.length ≤ MAX.toNat := by
  have hcond : (ext == ".csv" || ext == ".xlsx" || ext == ".xls") = true := by
    rcases hext with h | h | h <;> simp [h]
  obtain ⟨c0, rest, hc⟩ := List.exists_cons_of_ne_nil hcols
  have h1 := read_emails_ok MAX ext df hcond c0 rest hc
  have h2 := extractorSpec_cons MAX.toNat df c0 rest hc
  rw [pySliceTo_of_nonneg hM] at h1
  exact ⟨_, h1, h2, List.length_take_le _ _⟩

theorem c7_extractor_meets_contract_witness :
    (0 ≤ (2 : Int) ∧ df3.columns ≠ []) ∧
    ∃ l, read_emails 2 ".csv" (.ok df3) = .ok l ∧
      extractorSpec (2 : Int).toNat df3 = some l ∧
      l.length ≤ (2 : Int).toNat :=
  ⟨⟨by decide, by simp [df3]⟩,
   c7_extractor_meets_contract 2 (by decide) ".csv" df3 (Or.inl rfl)
     (by simp [df3])⟩

theorem storeName_valid (sid : String) :
    sid ++ "_" ++ "valid" ++ "_emails.csv" = sid ++ "_valid_emails.csv" := by
  rw [String.append_assoc, String.append_assoc]
  congr 1

theorem storeName_invalid (sid : String) :
    sid ++ "_" ++ "invalid" ++ "_emails.csv" = sid ++ "_invalid_emails.csv" := by
  rw [String.append_assoc, String.append_assoc]
  congr 1

/-- C8: Download rejects any kind other than `valid`/`invalid` with the
invalid-kind client error regardless of store state; for a recognized
kind it fails with not-found while the partition file has not been
written (before job completion); and against the store `save_results`
produces it serves each partition table, whose fixed header row is
present even when the partition itself is empty. -/
theorem c8_download_contract (store : Store) (sid kind : String)
    (d : ResultsDict) :
    (¬(kind = "valid" ∨ kind = "invalid") →
      download_results store sid kind = .invalidKind) ∧
    ((kind = "valid" ∨ kind = "invalid") →
      download_results emptyStore sid kind = .notFound) ∧
    (download_results (resultsStore sid d) sid "valid"
        = .file (validTable d) ∧
      (validTable d).head? = some ["Email", "Status"]) ∧
    (download_results (resultsStore sid d) sid "invalid"
        = .file (invalidTable d) ∧
      (invalidTable d).head? = some ["Email", "Status", "Reason"]) := by
  refine ⟨?_, ?_, ⟨?_, rfl⟩, ⟨?_, rfl⟩⟩
  · intro h
    push_neg at h
    have b1 : (kind == "valid") = false := beq_eq_false_iff_ne.mpr h.1
    have b2 : (kind == "invalid") = false := beq_eq_false_iff_ne.mpr h.2
    simp [download_results, b1, b2]
  · rintro (rfl | rfl) <;> rfl
  · simp [download_results, resultsStore, storeName_valid]
  · have hne : sid ++ "_invalid_emails.csv" ≠ sid ++ "_valid_emails.csv" := by
      intro h
      have hd := congrArg String.data h
      rw [String.data_append, String.data_append] at hd
      have h2 := String.ext (List.append_cancel_left hd)
      exact absurd h2 (by decide)
    unfold download_results resultsStore
    rw [storeName_invalid sid]
    have hb : (sid ++ "_invalid_emails.csv" == sid ++ "_valid_emails.csv")
        = false := beq_eq_false_iff_ne.mpr hne
    simp [hb]

/-! ## Loop projection lemmas -/

theorem processLoop_results (oracle : Nat → RemoteOutcome) (n : Nat)
    (pairs : List (Nat × String)) :
    ∀ (d : ResultsDict) (prog : Snapshot),
      (processLoop oracle n pairs d prog).1
        = pairs.foldl (insertStep oracle) d := by
  induction pairs with
  | nil => intro d prog; rfl
  | cons p rest ih =>
    intro d prog
    obtain ⟨i, e⟩ := p
    rw [List.foldl_cons]
    exact ih _ _

theorem processLoop_writes_processed (oracle : Nat → RemoteOutcome) (n : Nat)
    (pairs : List (Nat × String)) :
    ∀ (d : ResultsDict) (prog : Snapshot),
      ((processLoop oracle n pairs d prog).2.2).map Snapshot.processed
        = pairs.map Prod.fst := by
  induction pairs with
  | nil => intro d prog; rfl
  | cons p rest ih =>
    intro d prog
    obtain ⟨i, e⟩ := p
    rw [List.map_cons]
    show i :: ((processLoop oracle n rest _ _).2.2).map Snapshot.processed
      = i :: rest.map Prod.fst
    rw [ih]

theorem processLoop_writes_status (oracle : Nat → RemoteOutcome) (n : Nat)
    (pairs : List (Nat × String)) :
    ∀ (d : ResultsDict) (prog : Snapshot),
      ((processLoop oracle n pairs d prog).2.2).map Snapshot.status
        = List.replicate pairs.length prog.status := by
  induction pairs with
  | nil => intro d prog; rfl
  | cons p rest ih =>
    intro d prog
    obtain ⟨i, e⟩ := p
    rw [List.length_cons, List.replicate_succ]
    show prog.status :: ((processLoop oracle n rest _ _).2.2).map Snapshot.status
      = prog.status :: List.replicate rest.length prog.status
    rw [ih]

theorem processLoop_writes_total (oracle : Nat → RemoteOutcome) (n : Nat)
    (pairs : List (Nat × String)) :
    ∀ (d : ResultsDict) (prog : Snapshot),
      ((processLoop oracle n pairs d prog).2.2).map Snapshot.total
        = List.replicate pairs.length prog.total := by
  induction pairs with
  | nil => intro d prog; rfl
  | cons p rest ih =>
    intro d prog
    obtain ⟨i, e⟩ := p
    rw [List.length_cons, List.replicate_succ]
    show prog.total :: ((processLoop oracle n rest _ _).2.2).map Snapshot.total
      = prog.total :: List.replicate rest.length prog.total
    rw [ih]

theorem processLoop_snd_status (oracle : Nat → RemoteOutcome) (n : Nat)
    (pairs : List (Nat × String)) :
    ∀ (d : ResultsDict) (prog : Snapshot),
      (processLoop oracle n pairs d prog).2.1.status = prog.status := by
  induction pairs with
  | nil => intro d prog; rfl
  | cons p rest ih =>
    intro d prog
    obtain ⟨i, e⟩ := p
    exact ih _ _

theorem processLoop_snd_total (oracle : Nat → RemoteOutcome) (n : Nat)
    (pairs : List (Nat × String)) :
    ∀ (d : ResultsDict) (prog : Snapshot),
      (processLoop oracle n pairs d prog).2.1.total = prog.total := by
  induction pairs with
  | nil => intro d prog; rfl
  | cons p rest ih =>
    intro d prog
    obtain ⟨i, e⟩ := p
    exact ih _ _

theorem processLoop_snd_processed (oracle : Nat → RemoteOutcome) (n : Nat)
    (pairs : List (Nat × String)) :
    ∀ (d : ResultsDict) (prog : Snapshot),
      (processLoop oracle n pairs d prog).2.1.processed
        = (pairs.map Prod.fst).getLastD prog.processed := by
  induction pairs with
  | nil => intro d prog; rfl
  | cons p rest ih =>
    intro d prog
    obtain ⟨i, e⟩ := p
    rw [List.map_cons, List.getLastD_cons]
    exact ih _ _

theorem getLastD_range' :
    ∀ (m i d : Nat), (List.range' i (m + 1)).getLastD d = i + m
  | 0, i, d => by simp [List.range'_succ]
  | m + 1, i, d => by
    rw [List.range'_succ, List.getLastD_cons, getLastD_range' m (i + 1) i]
    omega

theorem chain'_le_range'_concat :
    ∀ (n i : Nat),
      List.Chain' (fun a b => a ≤ b) (List.range' i (n + 1) ++ [i + n])
  | 0, i => by
    simp [List.range'_succ, List.chain'_cons]
  | n + 1, i => by
    rw [List.range'_succ]
    have heq : i + (n + 1) = (i + 1) + n := by omega
    rw [heq, List.cons_append]
    refine List.chain'_cons'.mpr ⟨?_, chain'_le_range'_concat n (i + 1)⟩
    intro y hy
    have hmem := List.mem_of_mem_head? hy
    rcases List.mem_append.mp hmem with hr | hl
    · rcases List.mem_range'.mp hr with ⟨j, hj, rfl⟩
      omega
    · simp only [List.mem_singleton] at hl
      omega

/-! ## Dict lemmas -/

theorem dictGet_cons (p : String × String × String) (d : ResultsDict)
    (k : String) :
    dictGet (p :: d) k = if p.1 == k then some p.2 else dictGet d k := by
  cases hp : p.1 == k <;> simp [dictGet, List.find?_cons, hp]

theorem dictGet_dictInsert (d : ResultsDict) (k k' : String)
    (v : String × String) :
    dictGet (dictInsert d k v) k' = if k' = k then some v else dictGet d k' := by
  unfold dictInsert
  by_cases hkk : k' = k
  · subst hkk
    rw [if_pos rfl]
    by_cases hmem : (d.any fun p => p.1 == k') = true
    · rw [if_pos hmem]
      unfold dictGet
      rw [List.find?_map]
      have hpred : ((fun q : String × String × String => q.1 == k') ∘
            fun p => if p.1 == k' then (k', v.1, v.2) else p)
          = fun p => p.1 == k' := by
        funext p
        by_cases hp : (p.1 == k') = true
        · simp [eq_of_beq hp]
        · have hne : p.1 ≠ k' := fun hh => hp (beq_iff_eq.mpr hh)
          simp [hne]
      rw [hpred]
      obtain ⟨q, hq⟩ : ∃ q, d.find? (fun p => p.1 == k') = some q :=
        Option.isSome_iff_exists.mp
          (List.find?_isSome.mpr (List.any_eq_true.mp hmem))
      rw [hq]
      have hqk : (q.1 == k') = true := by
        have hb := List.find?_some hq
        exact hb
      simp [eq_of_beq hqk]
    · rw [if_neg hmem]
      unfold dictGet
      rw [List.find?_append]
      have hnone : d.find? (fun p => p.1 == k') = none := by
        rw [List.find?_eq_none]
        intro x hx hpx
        exact hmem (List.any_eq_true.mpr ⟨x, hx, hpx⟩)
      rw [hnone]
      simp
  · rw [if_neg hkk]
    by_cases hmem : (d.any fun p => p.1 == k) = true
    · rw [if_pos hmem]
      unfold dictGet
      rw [List.find?_map]
      have hpred : ((fun q : String × String × String => q.1 == k') ∘
            fun p => if p.1 == k then (k, v.1, v.2) else p)
          = fun p => p.1 == k' := by
        funext p
        by_cases hp : (p.1 == k) = true
        · simp [eq_of_beq hp]
        · have hne : p.1 ≠ k := fun hh => hp (beq_iff_eq.mpr hh)
          simp [hne]
      rw [hpred]
      cases hq : d.find? (fun p => p.1 == k') with
      | none => rfl
      | some q =>
        have hqk : (q.1 == k') = true := by
          have hb := List.find?_some hq
          exact hb
        have hqne : q.1 ≠ k := by
          rw [eq_of_beq hqk]
          exact hkk
        simp [hqne]
    · rw [if_neg hmem]
      unfold dictGet
      rw [List.find?_append]
      have hsingle : List.find? (fun p : String × String × String => p.1 == k')
          [(k, v.1, v.2)] = none := by
        have : (k == k') = false := beq_eq_false_iff_ne.mpr (fun h => hkk h.symm)
        simp [List.find?_cons, this]
      rw [hsingle]
      simp

theorem dictInsert_map_fst (d : ResultsDict) (k : String) (v : String × String) :
    (dictInsert d k v).map Prod.fst =
      if d.any (fun p => p.1 == k) then d.map Prod.fst
      else d.map Prod.fst ++ [k] := by
  unfold dictInsert
  by_cases hmem : (d.any fun p => p.1 == k) = true
  · rw [if_pos hmem, if_pos hmem, List.map_map]
    apply List.map_congr_left
    intro p _
    by_cases h : (p.1 == k) = true
    · simp [eq_of_beq h]
    · have hne : p.1 ≠ k := fun hh => h (beq_iff_eq.mpr hh)
      simp [hne]
  · rw [if_neg hmem, if_neg hmem, List.map_append]
    rfl

theorem dictInsert_keys_nodup (d : ResultsDict) (k : String)
    (v : String × String) (h : (d.map Prod.fst).Nodup) :
    ((dictInsert d k v).map Prod.fst).Nodup := by
  rw [dictInsert_map_fst]
  by_cases hmem : (d.any fun p => p.1 == k) = true
  · rw [if_pos hmem]; exact h
  · rw [if_neg hmem]
    have hk : k ∉ d.map Prod.fst := by
      intro hc
      obtain ⟨p, hp, hpk⟩ := List.mem_map.mp hc
      exact hmem (List.any_eq_true.mpr ⟨p, hp, beq_iff_eq.mpr hpk⟩)
    refine List.Nodup.append h (List.nodup_singleton k) ?_
    intro a ha hb
    rw [List.mem_singleton] at hb
    rw [hb] at ha
    exact hk ha

theorem mem_dictInsert_keys {a : String} (d : ResultsDict) (k : String)
    (v : String × String) :
    a ∈ (dictInsert d k v).map Prod.fst ↔ a ∈ d.map Prod.fst ∨ a = k := by
  rw [dictInsert_map_fst]
  by_cases hmem : (d.any fun p => p.1 == k) = true
  · rw [if_pos hmem]
    constructor
    · exact Or.inl
    · rintro (h | rfl)
      · exact h
      · obtain ⟨p, hp, hpk⟩ := List.any_eq_true.mp hmem
        exact List.mem_map.mpr ⟨p, hp, eq_of_beq hpk⟩
  · rw [if_neg hmem, List.mem_append, List.mem_singleton]

/-! ## Fold lemmas: the dict built by the whole loop -/

theorem foldl_insertStep_keys_nodup (oracle : Nat → RemoteOutcome)
    (pairs : List (Nat × String)) :
    ∀ d : ResultsDict, (d.map Prod.fst).Nodup →
      ((pairs.foldl (insertStep oracle) d).map Prod.fst).Nodup := by
  induction pairs with
  | nil => intro d h; exact h
  | cons p rest ih =>
    intro d h
    rw [List.foldl_cons]
    exact ih _ (dictInsert_keys_nodup _ _ _ h)

theorem mem_foldl_insertStep_keys (oracle : Nat → RemoteOutcome)
    (pairs : List (Nat × String)) :
    ∀ (d : ResultsDict) (a : String),
      (a ∈ (pairs.foldl (insertStep oracle) d).map Prod.fst ↔
        a ∈ d.map Prod.fst ∨ a ∈ pairs.map Prod.snd) := by
  induction pairs with
  | nil => intro d a; simp
  | cons p rest ih =>
    intro d a
    rw [List.foldl_cons, ih, List.map_cons, List.mem_cons]
    unfold insertStep
    rw [mem_dictInsert_keys]
    tauto

theorem dictGet_foldl_insertStep (oracle : Nat → RemoteOutcome) (e : String)
    (pairs : List (Nat × String)) :
    ∀ d : ResultsDict,
      dictGet (pairs.foldl (insertStep oracle) d) e =
        match (pairs.filter (fun q => q.2 == e)).getLast? with
        | some p => some (validate_email (oracle p.1))
        | none => dictGet d e := by
  induction pairs with
  | nil => intro d; rfl
  | cons p rest ih =>
    intro d
    rw [List.foldl_cons, ih]
    by_cases hpe : (p.2 == e) = true
    · rw [List.filter_cons, if_pos hpe]
      cases hfl : rest.filter (fun q => q.2 == e) with
      | nil =>
        show dictGet (insertStep oracle d p) e
          = match [p].getLast? with
            | some p => some (validate_email (oracle p.1))
            | none => dictGet d e
        unfold insertStep
        rw [dictGet_dictInsert]
        rw [if_pos (eq_of_beq hpe).symm]
        rfl
      | cons q qs =>
        rw [List.getLast?_cons_cons]
        cases hz : (q :: qs).getLast? with
        | none => simp at hz
        | some z => rfl
    · rw [List.filter_cons, if_neg hpe]
      cases hfl : rest.filter (fun q => q.2 == e) with
      | nil =>
        show dictGet (insertStep oracle d p) e = dictGet d e
        unfold insertStep
        rw [dictGet_dictInsert]
        rw [if_neg (fun hh => hpe (beq_iff_eq.mpr hh.symm))]
      | cons q qs => rfl

/-! ## Count lemmas -/

theorem save_results_counts (d : ResultsDict) :
    (save_results d).1 + (save_results d).2 = d.length := by
  unfold save_results validList invalidList
  rw [List.length_map, List.length_map]
  have hbne : (fun p : String × String × String => p.2.1 != "valid")
      = (fun p : String × String × String => !(p.2.1 == "valid")) := rfl
  rw [hbne]
  exact (List.length_eq_length_filter_add
    (fun p : String × String × String => p.2.1 == "valid")).symm

theorem runProcess_results_eq (oracle : Nat → RemoteOutcome)
    (emails : List String) (init : Snapshot) :
    (runProcess oracle emails init).results
      = (List.enumFrom 1 emails).foldl (insertStep oracle) [] := by
  unfold runProcess
  exact processLoop_results oracle emails.length (List.enumFrom 1 emails) [] init

theorem runProcess_counts (oracle : Nat → RemoteOutcome)
    (emails : List String) (init : Snapshot) :
    (runProcess oracle emails init).valid_count
        + (runProcess oracle emails init).invalid_count
      = (runProcess oracle emails init).results.length :=
  save_results_counts (runProcess oracle emails init).results

theorem results_keys_nodup (oracle : Nat → RemoteOutcome)
    (emails : List String) (init : Snapshot) :
    ((runProcess oracle emails init).results.map Prod.fst).Nodup := by
  rw [runProcess_results_eq]
  exact foldl_insertStep_keys_nodup oracle _ [] (by simp)

theorem results_length_eq_dedup (oracle : Nat → RemoteOutcome)
    (emails : List String) (init : Snapshot) :
    (runProcess oracle emails init).results.length = emails.dedup.length := by
  have hnd : ((runProcess oracle emails init).results.map Prod.fst).Nodup :=
    results_keys_nodup oracle emails init
  have hmem : ∀ a, a ∈ (runProcess oracle emails init).results.map Prod.fst
      ↔ a ∈ emails := by
    intro a
    rw [runProcess_results_eq, mem_foldl_insertStep_keys,
      List.enumFrom_map_snd]
    simp
  have hfs : ((runProcess oracle emails init).results.map Prod.fst).toFinset
      = emails.toFinset := by
    ext a
    rw [List.mem_toFinset, List.mem_toFinset, hmem]
  calc (runProcess oracle emails init).results.length
      = ((runProcess oracle emails init).results.map Prod.fst).length :=
        (List.length_map _ _).symm
    _ = ((runProcess oracle emails init).results.map Prod.fst).dedup.length := by
        rw [List.dedup_eq_self.mpr hnd]
    _ = ((runProcess oracle emails init).results.map Prod.fst).toFinset.card :=
        (List.card_toFinset _).symm
    _ = emails.toFinset.card := by rw [hfs]
    _ = emails.dedup.length := List.card_toFinset emails

/-! ## Partition membership lemmas -/

theorem mem_validList (d : ResultsDict) (e : String) :
    e ∈ validList d ↔ ∃ s r, (e, s, r) ∈ d ∧ s = "valid" := by
  unfold validList
  rw [List.mem_map]
  constructor
  · rintro ⟨p, hp, rfl⟩
    rw [List.mem_filter] at hp
    refine ⟨p.2.1, p.2.2, ?_, eq_of_beq hp.2⟩
    have : (p.1, p.2.1, p.2.2) = p := by simp
    rw [this]
    exact hp.1
  · rintro ⟨s, r, hm, rfl⟩
    exact ⟨(e, "valid", r), List.mem_filter.mpr ⟨hm, by simp⟩, rfl⟩

theorem mem_invalidList (d : ResultsDict) (e : String) :
    e ∈ invalidList d ↔ ∃ s r, (e, s, r) ∈ d ∧ s ≠ "valid" := by
  unfold invalidList
  rw [List.mem_map]
  constructor
  · rintro ⟨p, hp, rfl⟩
    rw [List.mem_filter] at hp
    refine ⟨p.2.1, p.2.2, ?_, by simpa using hp.2⟩
    have : (p.1, p.2.1, p.2.2) = p := by simp
    rw [this]
    exact hp.1
  · rintro ⟨s, r, hm, hs⟩
    exact ⟨(e, s, r), List.mem_filter.mpr ⟨hm, by simpa using hs⟩, rfl⟩

theorem dictGet_of_mem_nodup (d : ResultsDict)
    (hnd : (d.map Prod.fst).Nodup) {e s r : String}
    (hm : (e, s, r) ∈ d) : dictGet d e = some (s, r) := by
  induction d with
  | nil => cases hm
  | cons p rest ih =>
    rw [List.map_cons, List.nodup_cons] at hnd
    rw [dictGet_cons]
    rcases List.mem_cons.mp hm with rfl | hm'
    · simp
    · by_cases hp : (p.1 == e) = true
      · exfalso
        have he : e ∈ rest.map Prod.fst := List.mem_map.mpr ⟨(e, s, r), hm', rfl⟩
        rw [← eq_of_beq hp] at he
        exact hnd.1 he
      · rw [if_neg hp]
        exact ih hnd.2 hm'

/-- From a successful dict lookup, recover the membership of the looked-up
entry. -/
theorem mem_of_dictGet (d : ResultsDict) {e s r : String}
    (h : dictGet d e = some (s, r)) : (e, s, r) ∈ d := by
  unfold dictGet at h
  cases hq : d.find? (fun p => p.1 == e) with
  | none => rw [hq] at h; cases h
  | some q =>
    rw [hq] at h
    have hq2 : q.2 = (s, r) := by injection h
    have hq1 : q.1 = e := by
      have hb := List.find?_some hq
      exact eq_of_beq hb
    have hqq : q = (e, s, r) := by
      rw [← hq1, ← hq2]
    rw [← hqq]
    exact List.mem_of_find?_eq_some hq

/-! ## The worker's final snapshot write -/

theorem runProcess_writes_eq (oracle : Nat → RemoteOutcome)
    (emails : List String) (init : Snapshot) :
    ∃ fin, (runProcess oracle emails init).writes
        = (processLoop oracle emails.length (List.enumFrom 1 emails) []
            init).2.2 ++ [fin] ∧
      fin.status = "complete" ∧
      fin.total = init.total ∧
      fin.processed = (List.range' 1 emails.length).getLastD init.processed ∧
      fin.valid_count = some (runProcess oracle emails init).valid_count ∧
      fin.invalid_count = some (runProcess oracle emails init).invalid_count := by
  refine ⟨_, rfl, rfl, ?_, ?_, rfl, rfl⟩
  · show (processLoop oracle emails.length (List.enumFrom 1 emails) []
        init).2.1.total = init.total
    exact processLoop_snd_total oracle emails.length _ [] init
  · show (processLoop oracle emails.length (List.enumFrom 1 emails) []
        init).2.1.processed = (List.range' 1 emails.length).getLastD init.processed
    rw [processLoop_snd_processed, List.enumFrom_map_fst]

/-! ## Session write-sequence lemmas -/

theorem sessionWrites_map_processed (oracle : Nat → RemoteOutcome)
    (sid : String) (limit : Int) (emails : List String) (h : emails ≠ []) :
    (sessionWrites oracle sid limit emails).map Snapshot.processed
      = 0 :: (List.range' 1 emails.length ++ [emails.length]) := by
  obtain ⟨n, hn⟩ : ∃ n, emails.length = n + 1 :=
    ⟨emails.length - 1, by have := List.length_pos.mpr h; omega⟩
  obtain ⟨fin, hw, -, -, hproc, -, -⟩ :=
    runProcess_writes_eq oracle emails (initialSnapshot sid limit emails.length)
  unfold sessionWrites
  rw [List.map_cons, hw, List.map_append, processLoop_writes_processed,
    List.enumFrom_map_fst]
  simp only [List.map_cons, List.map_nil]
  have hip : (initialSnapshot sid limit emails.length).processed = 0 := rfl
  have hfp : fin.processed = emails.length := by
    rw [hproc, hip, hn, getLastD_range' n 1 0]
    omega
  rw [hip, hfp]

theorem sessionWrites_map_status (oracle : Nat → RemoteOutcome)
    (sid : String) (limit : Int) (emails : List String) :
    (sessionWrites oracle sid limit emails).map Snapshot.status
      = List.replicate (emails.length + 1) "processing" ++ ["complete"] := by
  obtain ⟨fin, hw, hst, -, -, -, -⟩ :=
    runProcess_writes_eq oracle emails (initialSnapshot sid limit emails.length)
  unfold sessionWrites
  rw [List.map_cons, hw, List.map_append, processLoop_writes_status,
    List.enumFrom_length]
  simp only [List.map_cons, List.map_nil]
  have h1 : (initialSnapshot sid limit emails.length).status = "processing" := rfl
  rw [h1, hst, List.replicate_succ]
  rfl

theorem sessionWrites_map_total (oracle : Nat → RemoteOutcome)
    (sid : String) (limit : Int) (emails : List String) :
    (sessionWrites oracle sid limit emails).map Snapshot.total
      = List.replicate (emails.length + 2) emails.length := by
  obtain ⟨fin, hw, -, htot, -, -, -⟩ :=
    runProcess_writes_eq oracle emails (initialSnapshot sid limit emails.length)
  unfold sessionWrites
  rw [List.map_cons, hw, List.map_append, processLoop_writes_total,
    List.enumFrom_length]
  simp only [List.map_cons, List.map_nil]
  have h1 : (initialSnapshot sid limit emails.length).total = emails.length := rfl
  rw [h1, htot, h1]
  rw [show emails.length + 2 = (emails.length + 1) + 1 from rfl,
    List.replicate_succ]
  congr 1
  rw [List.replicate_succ']

/-- C3: across a session's successive progress writes (the initial write
from Submit, one write per verified address, and the final write),
`processed` is monotonically non-decreasing and never exceeds `total`;
the status sequence is `processing` on every write except the last,
which is the unique `complete` write (so the transition happens exactly
once and is never reversed); and the final write, which carries
`status = complete` together with the valid/invalid counts, is the last
element of the session's write sequence. -/
theorem c3_progress_invariants (oracle : Nat → RemoteOutcome) (sid : String)
    (limit : Int) (emails : List String) (h : emails ≠ []) :
    List.Chain' (fun a b => a.processed ≤ b.processed)
      (sessionWrites oracle sid limit emails) ∧
    (∀ w ∈ sessionWrites oracle sid limit emails, w.processed ≤ w.total) ∧
    (sessionWrites oracle sid limit emails).map Snapshot.status
      = List.replicate (emails.length + 1) "processing" ++ ["complete"] ∧
    ∃ fin, (sessionWrites oracle sid limit emails).getLast? = some fin ∧
      fin.status = "complete" ∧ fin.processed = emails.length ∧
      fin.valid_count
          = some (runProcess oracle emails
              (initialSnapshot sid limit emails.length)).valid_count ∧
      fin.invalid_count
          = some (runProcess oracle emails
              (initialSnapshot sid limit emails.length)).invalid_count := by
  obtain ⟨n, hn⟩ : ∃ n, emails.length = n + 1 :=
    ⟨emails.length - 1, by have := List.length_pos.mpr h; omega⟩
  have hp := sessionWrites_map_processed oracle sid limit emails h
  have hs := sessionWrites_map_status oracle sid limit emails
  have ht := sessionWrites_map_total oracle sid limit emails
  refine ⟨?_, ?_, hs, ?_⟩
  · have hch := chain'_le_range'_concat (n + 1) 0
    simp only [List.range'_succ, Nat.zero_add, List.cons_append] at hch
    have hmapped : List.Chain' (fun a b : Nat => a ≤ b)
        ((sessionWrites oracle sid limit emails).map Snapshot.processed) := by
      rw [hp, hn]
      exact hch
    exact (List.chain'_map Snapshot.processed).mp hmapped
  · intro w hw
    have hwt : w.total = emails.length := by
      have hmem : w.total
          ∈ (sessionWrites oracle sid limit emails).map Snapshot.total :=
        List.mem_map_of_mem Snapshot.total hw
      rw [ht] at hmem
      exact List.eq_of_mem_replicate hmem
    have hwp : w.processed
        ∈ (0 :: (List.range' 1 emails.length ++ [emails.length])) := by
      have hmem : w.processed
          ∈ (sessionWrites oracle sid limit emails).map Snapshot.processed :=
        List.mem_map_of_mem Snapshot.processed hw
      rw [hp] at hmem
      exact hmem
    rw [hwt]
    rcases List.mem_cons.mp hwp with h0 | hmem2
    · omega
    · rcases List.mem_append.mp hmem2 with hr | hl
      · rcases List.mem_range'.mp hr with ⟨j, hj, hje⟩
        omega
      · rw [List.mem_singleton] at hl
        omega
  · obtain ⟨fin, hw, hst, htot, hproc, hvc, hic⟩ :=
      runProcess_writes_eq oracle emails (initialSnapshot sid limit emails.length)
    refine ⟨fin, ?_, hst, ?_, hvc, hic⟩
    · show (initialSnapshot sid limit emails.length ::
          (runProcess oracle emails
            (initialSnapshot sid limit emails.length)).writes).getLast?
        = some fin
      rw [hw, ← List.cons_append]
      exact List.getLast?_concat _
    · have hip : (initialSnapshot sid limit emails.length).processed = 0 := rfl
      rw [hproc, hip, hn, getLastD_range' n 1 0]
      omega

theorem c3_progress_invariants_witness :
    (["a"] : List String) ≠ [] ∧
    (List.Chain' (fun a b => a.processed ≤ b.processed)
        (sessionWrites oracleW "s" 100 ["a"]) ∧
      (∀ w ∈ sessionWrites oracleW "s" 100 ["a"], w.processed ≤ w.total) ∧
      (sessionWrites oracleW "s" 100 ["a"]).map Snapshot.status
        = List.replicate ((["a"] : List String).length + 1) "processing"
            ++ ["complete"] ∧
      ∃ fin, (sessionWrites oracleW "s" 100 ["a"]).getLast? = some fin ∧
        fin.status = "complete" ∧
        fin.processed = (["a"] : List String).length ∧
        fin.valid_count
            = some (runProcess oracleW ["a"]
                (initialSnapshot "s" 100 (["a"] : List String).length)).valid_count ∧
        fin.invalid_count
            = some (runProcess oracleW ["a"]
                (initialSnapshot "s" 100 (["a"] : List String).length)).invalid_count) :=
  ⟨by decide, c3_progress_invariants oracleW "s" 100 ["a"] (by decide)⟩

/-- C5: when the same address appears more than once in the input, the
final recorded outcome for it is the result of the later verification
call (last-write-wins: the call at the 1-based position of its last
occurrence), while every list position still increments `processed` —
the worker's write sequence carries `processed = 1, 2, …, n` and the
final write repeats `n`, the full input length. -/
theorem c5_last_write_wins (oracle : Nat → RemoteOutcome)
    (emails : List String) (init : Snapshot) (e : String) (p : Nat × String)
    (hl : ((List.enumFrom 1 emails).filter (fun q => q.2 == e)).getLast?
      = some p) :
    dictGet (runProcess oracle emails init).results e
        = some (validate_email (oracle p.1)) ∧
    (runProcess oracle emails init).writes.map Snapshot.processed
        = List.range' 1 emails.length ++ [emails.length] := by
  have hne : emails ≠ [] := by
    rintro rfl
    simp at hl
  obtain ⟨n, hn⟩ : ∃ n, emails.length = n + 1 :=
    ⟨emails.length - 1, by have := List.length_pos.mpr hne; omega⟩
  constructor
  · rw [runProcess_results_eq, dictGet_foldl_insertStep, hl]
  · obtain ⟨fin, hw, -, -, hproc, -, -⟩ := runProcess_writes_eq oracle emails init
    rw [hw, List.map_append, processLoop_writes_processed,
      List.enumFrom_map_fst]
    simp only [List.map_cons, List.map_nil]
    have hfp : fin.processed = emails.length := by
      rw [hproc, hn, getLastD_range' n 1 init.processed]
      omega
    rw [hfp]

theorem c5_last_write_wins_witness :
    ((List.enumFrom 1 ["a", "a"]).filter (fun q => q.2 == "a")).getLast?
        = some (2, "a") ∧
    (dictGet (runProcess oracleW ["a", "a"]
          (initialSnapshot "s" 100 2)).results "a"
        = some (validate_email (oracleW 2)) ∧
      (runProcess oracleW ["a", "a"]
          (initialSnapshot "s" 100 2)).writes.map Snapshot.processed
        = List.range' 1 (["a", "a"] : List String).length
            ++ [(["a", "a"] : List String).length]) :=
  ⟨rfl, c5_last_write_wins oracleW ["a", "a"] (initialSnapshot "s" 100 2) "a"
    (2, "a") rfl⟩

/-- C6: for inputs with no duplicate addresses, at completion the
partition counts sum to the input length (`valid_count + invalid_count
= total`), and partition membership is exactly by recorded status: an
address with recorded outcome `(s, r)` is in the valid partition iff
`s = "valid"` and in the invalid partition iff `s ≠ "valid"` (so error
outcomes fall in the invalid partition). -/
theorem c6_partition_counts (oracle : Nat → RemoteOutcome)
    (emails : List String) (init : Snapshot) (hnd : emails.Nodup) :
    (runProcess oracle emails init).valid_count
        + (runProcess oracle emails init).invalid_count = emails.length ∧
    ∀ e s r, dictGet (runProcess oracle emails init).results e = some (s, r) →
      ((e ∈ validList (runProcess oracle emails init).results ↔ s = "valid") ∧
       (e ∈ invalidList (runProcess oracle emails init).results ↔
        s ≠ "valid")) := by
  constructor
  · rw [runProcess_counts, results_length_eq_dedup,
      List.dedup_eq_self.mpr hnd]
  · intro e s r h
    have hker := results_keys_nodup oracle emails init
    have hmem : (e, s, r) ∈ (runProcess oracle emails init).results :=
      mem_of_dictGet _ h
    constructor
    · rw [mem_validList]
      constructor
      · rintro ⟨s', r', hm', rfl⟩
        have h2 := dictGet_of_mem_nodup _ hker hm'
        rw [h] at h2
        simp only [Option.some.injEq, Prod.mk.injEq] at h2
        exact h2.1
      · intro hs
        subst hs
        exact ⟨"valid", r, hmem, rfl⟩
    · rw [mem_invalidList]
      constructor
      · rintro ⟨s', r', hm', hs'⟩
        have h2 := dictGet_of_mem_nodup _ hker hm'
        rw [h] at h2
        simp only [Option.some.injEq, Prod.mk.injEq] at h2
        rw [h2.1]
        exact hs'
      · intro hs
        exact ⟨s, r, hmem, hs⟩

theorem c6_partition_counts_witness :
    (["a", "b"] : List String).Nodup ∧
    ((runProcess oracleW ["a", "b"] (initialSnapshot "s" 100 2)).valid_count
        + (runProcess oracleW ["a", "b"]
            (initialSnapshot "s" 100 2)).invalid_count
      = (["a", "b"] : List String).length ∧
     ∀ e s r, dictGet (runProcess oracleW ["a", "b"]
          (initialSnapshot "s" 100 2)).results e = some (s, r) →
       ((e ∈ validList (runProcess oracleW ["a", "b"]
            (initialSnapshot "s" 100 2)).results ↔ s = "valid") ∧
        (e ∈ invalidList (runProcess oracleW ["a", "b"]
            (initialSnapshot "s" 100 2)).results ↔ s ≠ "valid"))) :=
  ⟨by decide,
   c6_partition_counts oracleW ["a", "b"] (initialSnapshot "s" 100 2)
     (by decide)⟩

/-- C10: for every input, at completion `valid_count + invalid_count`
equals the number of distinct address strings in the input (the results
dict is keyed by the literal address, so duplicates collapse); in
particular, when the input contains duplicates the sum is strictly less
than `total`. -/
theorem c10_duplicates_counts (oracle : Nat → RemoteOutcome)
    (emails : List String) (init : Snapshot) :
    (runProcess oracle emails init).valid_count
        + (runProcess oracle emails init).invalid_count
      = emails.dedup.length ∧
    (¬emails.Nodup →
      (runProcess oracle emails init).valid_count
          + (runProcess oracle emails init).invalid_count < emails.length) := by
  have hsum : (runProcess oracle emails init).valid_count
      + (runProcess oracle emails init).invalid_count
      = emails.dedup.length := by
    rw [runProcess_counts, results_length_eq_dedup]
  refine ⟨hsum, ?_⟩
  intro hnd
  rw [hsum]
  have hsub := List.dedup_sublist emails
  have hle := hsub.length_le
  rcases Nat.lt_or_ge emails.dedup.length emails.length with hlt | hge
  · exact hlt
  · exfalso
    have heq : emails.dedup = emails := hsub.eq_of_length (by omega)
    exact hnd (heq ▸ List.nodup_dedup emails)

theorem c10_duplicates_counts_witness :
    ¬(["a", "a"] : List String).Nodup ∧
    (runProcess oracleW ["a", "a"] (initialSnapshot "s" 100 2)).valid_count
        + (runProcess oracleW ["a", "a"]
            (initialSnapshot "s" 100 2)).invalid_count
      < (["a", "a"] : List String).length :=
  ⟨by decide,
   (c10_duplicates_counts oracleW ["a", "a"]
     (initialSnapshot "s" 100 2)).2 (by decide)⟩

theorem c8_download_contract_witness :
    ¬("bogus" = "valid" ∨ "bogus" = "invalid") ∧
    download_results emptyStore "s" "bogus" = .invalidKind ∧
    download_results emptyStore "s" "valid" = .notFound :=
  ⟨by decide,
   (c8_download_contract emptyStore "s" "bogus" []).1 (by decide),
   (c8_download_contract emptyStore "s" "valid" []).2.1 (Or.inl rfl)⟩

end EmailVerifier
